import Mathlib

/-!
Verification of the pymatcher selection-and-classification core.

Shallow embedding of `src/modules/data.py`:

* `squared_error` embeds `Data._squared_error` (typed dispatch over
  numpy arrays, numpy float64 scalars, and unsupported operands).
* `scanIdeals` / `findIdealFor` / `find_ideal_functions` embed the
  nested least-squares scan of `TrainingData.find_ideal_functions`.
* `processRecords` / `processPoint` / `map_to_functions` embed the
  per-test-point classification loop of `TestData.map_to_functions`,
  with `mapping_criterion` embedding `TestData._mapping_criterion`.

Numeric values are modelled as rationals (the code computes with IEEE
float64; the rationals are the exact idealisation of that arithmetic).
The irrational constant `sqrt 2` of the mapping criterion is handled by
pairing the real-valued criterion `mapping_criterion_real`, written
exactly as the code writes it, with a decidable form proved equivalent
on the nonnegative deviations the classifier produces.
-/

namespace PyMatcher

/-- A runtime value passed to `Data._squared_error`: a numpy 1-d array
(`np.ndarray`), a numpy scalar (`np.float64`), or an unsupported scalar
operand, represented by an integer (`np.int64` in the repository's own
test `test_squared_error_unsupported_type`). -/
inductive PyVal where
  | arr (xs : List ℚ)
  | flt (x : ℚ)
  | int (n : ℤ)
deriving DecidableEq

/-- Python `type(_)` identity for `PyVal`: two values have equal tags
exactly when `type(a) == type(b)` holds for the operands they model. -/
def PyVal.tag : PyVal → Nat
  | .arr _ => 0
  | .flt _ => 1
  | .int _ => 2

/-- The three failure conditions raised by `Data._squared_error`:
`TypesDoNotMatchException`, `IndexCountDoesNotMatchException`, and the
generic `TypeError` for unsupported operand types. -/
inductive SqError where
  | typeMismatch
  | indexCountMismatch
  | unsupportedType
deriving DecidableEq

/-- The per-index squared deviation array
`np.square(np.subtract(training_data, ideal_data))` computed by
`Data._squared_error` on two aligned arrays. -/
def devArr (t r : List ℚ) : List ℚ :=
  List.zipWith (fun a b => (a - b) ^ 2) t r

/-- Embedding of `dev.sum()`: the total squared deviation of a training/reference
pair, as summed in `TrainingData.find_ideal_functions`. -/
def devSum (t r : List ℚ) : ℚ :=
  (devArr t r).sum

/-- Embedding of `Data._squared_error` (src/modules/data.py lines
43-95): first the `type(...)` equality check (`TypesDoNotMatch` on
failure), then the array/array branch guarded by the size check
(`IndexCountDoesNotMatch` on failure), then the float64/float64 branch,
and otherwise the unsupported-type `TypeError`. -/
def squared_error (training_data ideal_data : PyVal) : Except SqError PyVal :=
  if training_data.tag ≠ ideal_data.tag then
    .error .typeMismatch
  else
    match training_data, ideal_data with
    | .arr a, .arr b =>
      if a.length ≠ b.length then
        .error .indexCountMismatch
      else
        .ok (.arr (devArr a b))
    | .flt x, .flt y => .ok (.flt ((x - y) ^ 2))
    | _, _ => .error .unsupportedType

/-- The scalar squared deviation `(x - y) ** 2` returned by the
float64/float64 branch of `Data._squared_error`. -/
def squared_error_flt (x y : ℚ) : ℚ := (x - y) ^ 2

/-- One column of a data table: the column label and the column's
values in row order (as produced by `Series.to_numpy()`). -/
structure Series where
  name : String
  ys : List ℚ
deriving DecidableEq

/-- The running-minimum state of one outer iteration of
`TrainingData.find_ideal_functions`: `min_dev_sum` starts at the `-1`
sentinel; `min_dev` and `min_name` model the Python locals `min_dev`
and `min_name`, which are unbound (`none`) until first assigned. -/
structure ScanState where
  min_dev_sum : ℚ
  min_dev : Option (List ℚ)
  min_name : Option String
deriving DecidableEq

/-- The state of the loop locals before the inner loop runs:
`min_dev_sum = -1`, `min_dev` and `min_name` unbound. -/
def initState : ScanState := ⟨-1, none, none⟩

/-- Extract the array payload of a `PyVal` known to be an array (the
shape `_squared_error` returns on two array operands). -/
def PyVal.asArr : PyVal → List ℚ
  | .arr xs => xs
  | _ => []

/-- Extract the scalar payload of a `PyVal` known to be a float (the
shape `_squared_error` returns on two float64 operands). -/
def PyVal.asFlt : PyVal → ℚ
  | .flt x => x
  | _ => 0

/-- The scan state after the running minimum has been set to the ideal
function `w`: `min_dev_sum`, `min_dev` and `min_name` all describe the
training/`w` pair. -/
def stOf (t : List ℚ) (w : Series) : ScanState :=
  ⟨devSum t w.ys, some (devArr t w.ys), some w.name⟩

/-- The inner loop of `TrainingData.find_ideal_functions` (lines
197-210): for each ideal function compute the squared-error array and
its sum, and replace the running minimum when `min_dev_sum == -1 or
dev_sum < min_dev_sum`. A `_squared_error` failure aborts the run. -/
def scanIdeals (t : List ℚ) : List Series → ScanState → Except SqError ScanState
  | [], st => .ok st
  | r :: rest, st =>
    match squared_error (.arr t) (.arr r.ys) with
    | .error e => .error e
    | .ok v =>
      let dev := v.asArr
      let dev_sum := dev.sum
      if st.min_dev_sum = -1 ∨ dev_sum < st.min_dev_sum then
        scanIdeals t rest ⟨dev_sum, some dev, some r.name⟩
      else
        scanIdeals t rest st

/-- The failure conditions of one outer iteration of
`find_ideal_functions`: a propagated `_squared_error` failure, the
`NameError` raised when `min_dev`/`min_name` are referenced without
ever being assigned (empty reference library), and the `ValueError`
numpy raises for `min_dev.max()` on an empty array. -/
inductive FindErr where
  | sq (e : SqError)
  | unboundLocal
  | emptyMax
deriving DecidableEq

/-- Embedding of `numpy.ndarray.max()`: the maximum entry of an array, failing
(`none`) on an empty array. -/
def npMax : List ℚ → Option ℚ
  | [] => none
  | x :: xs => some (xs.foldl max x)

/-- One Selection Record produced per training series by
`find_ideal_functions`: the two-entry result column indexed by
`("maximum_deviation", "ideal_function")` (lines 212-216) together with
the retained deviation trace (line 219). -/
structure SelectionRecord where
  training_name : String
  maximum_deviation : ℚ
  ideal_function : String
  deviations : List ℚ
deriving DecidableEq

/-- The body of one outer iteration of
`TrainingData.find_ideal_functions` (lines 184-219): run the inner scan
from the sentinel state, then read the loop locals `min_dev` /
`min_name` to build the result column via `min_dev.max()`. -/
def findIdealFor (t : Series) (ideals : List Series) : Except FindErr SelectionRecord :=
  match scanIdeals t.ys ideals initState with
  | .error e => .error (.sq e)
  | .ok st =>
    match st.min_dev, st.min_name with
    | some dev, some nm =>
      match npMax dev with
      | some m => .ok ⟨t.name, m, nm, dev⟩
      | none => .error .emptyMax
    | _, _ => .error .unboundLocal

/-- Embedding of `TrainingData.find_ideal_functions` (lines 167-231):
one Selection Record per training series, in training order; the first
failing iteration aborts the whole computation. -/
def find_ideal_functions : List Series → List Series → Except FindErr (List SelectionRecord)
  | [], _ => .ok []
  | t :: ts, ideals =>
    match findIdealFor t ideals with
    | .error e => .error e
    | .ok rec =>
      match find_ideal_functions ts ideals with
      | .error e => .error e
      | .ok recs => .ok (rec :: recs)

/-- The ideal-functions table held by `Data`: the `x` index column
(`index_col='x'` in `utils.read_data`) plus one named column per ideal
function, each aligned with the index. -/
structure IdealTable where
  xs : List ℚ
  cols : List Series
deriving DecidableEq

/-- Embedding of `Data.ideal_column_by_name`: the pandas column lookup
`self._ideal_functions[name]`, `none` modelling the `KeyError` for an
absent column label. -/
def ideal_column_by_name (tbl : IdealTable) (name : String) : Option Series :=
  tbl.cols.find? (fun c => c.name = name)

/-- A pandas label lookup `series[x]` on a series with index keys
paired to values: the value at the first matching key, `none`
modelling the `KeyError` for an absent label. -/
def seriesAt : List (ℚ × ℚ) → ℚ → Option ℚ
  | [], _ => none
  | (a, b) :: rest, x => if a = x then some b else seriesAt rest x

/-- The failure conditions of `TestData.map_to_functions`: a propagated
`_squared_error` failure, the `KeyError` for an ideal-function name
absent from the table, and the `KeyError` for `f_values[x]` when the
test point's x-coordinate is absent from the index. -/
inductive MapErr where
  | sq (e : SqError)
  | columnKeyError
  | lookupKeyError
deriving DecidableEq

/-- The lookup `f_values[x]` performed on line 292: fetch the ideal column by
name, then look its series up at label `x`. -/
def idealValueAt (tbl : IdealTable) (name : String) (x : ℚ) : Except MapErr ℚ :=
  match ideal_column_by_name tbl name with
  | none => .error .columnKeyError
  | some col =>
    match seriesAt (tbl.xs.zip col.ys) x with
    | none => .error .lookupKeyError
    | some v => .ok v

/-- One column of the selection result passed to `map_to_functions` as
`result_data`: keyed by the training-series name and holding the
`maximum_deviation` and `ideal_function` entries. -/
structure ResultColumn where
  training_name : String
  maximum_deviation : ℚ
  ideal_function : String
deriving DecidableEq

/-- One row of the mapping results table built by
`TestData._create_result_row`: `delta_y = none` and
`ideal_no = none` model the empty-string fields of an unmatched row.
A matched row's code-level `Delta Y` is `math.sqrt(dev)`; since `dev`
is the perfect square `(y - v)^2`, that square root is exactly
`|y - v|`, stored here as a rational. -/
structure ResultRow where
  x : ℚ
  y : ℚ
  delta_y : Option ℚ
  ideal_no : Option String
deriving DecidableEq

/-- Embedding of `math.sqrt` specialised to the perfect squares the classifier feeds
it: the classifier only takes square roots of values `(y - v)^2`, and
`math.sqrt ((y - v)^2) = |y - v|` exactly. -/
def sqrtOfSq (base : ℚ) : ℚ := |base|

/-- The real-valued mapping criterion exactly as
`TestData._mapping_criterion` (line 334) writes it:
`deviation * math.sqrt(2) <= max_deviation`. -/
def mapping_criterion_real (deviation max_deviation : ℚ) : Prop :=
  (deviation : ℝ) * Real.sqrt 2 ≤ (max_deviation : ℝ)

/-- Decidable form of the mapping criterion used by the executable
classifier; `mapping_criterion_eq_real` proves it coincides with
`mapping_criterion_real` for the nonnegative deviations produced by
the squared error. -/
def mapping_criterion (deviation max_deviation : ℚ) : Bool :=
  decide (0 ≤ max_deviation ∧ 2 * deviation ^ 2 ≤ max_deviation ^ 2)

/-- The inner loop of `TestData.map_to_functions` (lines 282-303) for
one test point `(x, y)`: for each result column in training order, look
up the ideal value at `x`, compute the scalar squared error, and emit a
result row when the mapping criterion holds. Failures abort the run at
the first failing record. -/
def processRecords (tbl : IdealTable) (x y : ℚ) :
    List ResultColumn → Except MapErr (List ResultRow)
  | [] => .ok []
  | r :: rest =>
    match idealValueAt tbl r.ideal_function x with
    | .error e => .error e
    | .ok v =>
      match squared_error (.flt y) (.flt v) with
      | .error e => .error (.sq e)
      | .ok dv =>
        let dev := dv.asFlt
        match processRecords tbl x y rest with
        | .error e => .error e
        | .ok rows =>
          if mapping_criterion dev r.maximum_deviation then
            .ok (⟨x, y, some (sqrtOfSq (y - v)), some r.ideal_function⟩ :: rows)
          else
            .ok rows

/-- The whole body of `map_to_functions` for one test point: the inner
loop over result columns followed by the `matched` check (lines
305-308) that emits the single empty row when nothing matched. -/
def processPoint (tbl : IdealTable) (records : List ResultColumn) (x y : ℚ) :
    Except MapErr (List ResultRow) :=
  match processRecords tbl x y records with
  | .error e => .error e
  | .ok rows => .ok (if rows.isEmpty then [⟨x, y, none, none⟩] else rows)

/-- Embedding of `TestData.map_to_functions` (lines 246-313): process
the test points in arrival order, concatenating each point's rows; the
first failing point aborts the run. -/
def map_to_functions (tbl : IdealTable) (records : List ResultColumn) :
    List (ℚ × ℚ) → Except MapErr (List ResultRow)
  | [] => .ok []
  | (x, y) :: pts =>
    match processPoint tbl records x y with
    | .error e => .error e
    | .ok rows =>
      match map_to_functions tbl records pts with
      | .error e => .error e
      | .ok more => .ok (rows ++ more)

/-- Whether one result column accepts the test point `(x, y)`: the
lookup succeeds and the mapping criterion holds for the scalar squared
deviation. -/
def acceptsPoint (tbl : IdealTable) (x y : ℚ) (r : ResultColumn) : Bool :=
  match idealValueAt tbl r.ideal_function x with
  | .ok v => mapping_criterion (squared_error_flt y v) r.maximum_deviation
  | .error _ => false

/-- The row the inner loop emits for one result column, if any:
`some` exactly when the column accepts the point. -/
def rowFor (tbl : IdealTable) (x y : ℚ) (r : ResultColumn) : Option ResultRow :=
  match idealValueAt tbl r.ideal_function x with
  | .ok v =>
    if mapping_criterion (squared_error_flt y v) r.maximum_deviation then
      some ⟨x, y, some (sqrtOfSq (y - v)), some r.ideal_function⟩
    else
      none
  | .error _ => none

/-- Concrete training series from the spec's end-to-end scenario:
`T = [(0,1),(1,2),(2,3)]`. -/
def tExample : Series := ⟨"y1", [1, 2, 3]⟩

/-- Concrete reference library from the spec's end-to-end scenario:
`R1` identical to the training series, `R2` constantly zero. -/
def idealsExample : List Series := [⟨"f1", [1, 2, 3]⟩, ⟨"f2", [0, 0, 0]⟩]

/-- Concrete training series for the tie-break scenario. -/
def tTie : Series := ⟨"y1", [0, 0]⟩

/-- Concrete reference library in which both candidates achieve the
same minimal sum of squared deviations (2 each). -/
def idealsTie : List Series := [⟨"f1", [1, 1]⟩, ⟨"f2", [-1, -1]⟩]

/-- Concrete one-column ideal table for classifier scenarios: index
`x = 0`, column `f1` with value `1`. -/
def tblW : IdealTable := ⟨[0], [⟨"f1", [1]⟩]⟩

/-- Selection result column accepting the point `(0, 1)` (deviation 0,
tolerance basis 0). -/
def recW : ResultColumn := ⟨"y1", 0, "f1"⟩

/-- Selection result column rejecting every point (negative tolerance
basis). -/
def recReject : ResultColumn := ⟨"y1", -1, "f1"⟩

/-- Two selection result columns that both accept the point `(0, 1)`. -/
def recsBoth : List ResultColumn := [⟨"y1", 10, "f1"⟩, ⟨"y2", 10, "f1"⟩]

lemma squared_error_arr_ok (t r : List ℚ) (h : r.length = t.length) :
    squared_error (.arr t) (.arr r) = .ok (.arr (devArr t r)) := by
  simp [squared_error, PyVal.tag, h]

lemma squared_error_arr_err (t r : List ℚ) (h : t.length ≠ r.length) :
    squared_error (.arr t) (.arr r) = .error .indexCountMismatch := by
  simp [squared_error, PyVal.tag, h]

lemma squared_error_flt_ok (x y : ℚ) :
    squared_error (.flt x) (.flt y) = .ok (.flt (squared_error_flt x y)) := rfl

lemma devArr_length (t r : List ℚ) :
    (devArr t r).length = min t.length r.length := by
  simp [devArr]

lemma devArr_get (t r : List ℚ) :
    ∀ (i : ℕ) (hi : i < (devArr t r).length) (ht : i < t.length)
      (hr : i < r.length),
      (devArr t r).get ⟨i, hi⟩ = (t.get ⟨i, ht⟩ - r.get ⟨i, hr⟩) ^ 2 := by
  induction t generalizing r with
  | nil => intro i hi; simp [devArr] at hi
  | cons a t ih =>
    intro i hi ht hr
    cases r with
    | nil => simp [devArr] at hi
    | cons b r =>
      cases i with
      | zero => simp [devArr]
      | succ j =>
        simp only [devArr, List.zipWith_cons_cons, List.get_cons_succ]
        exact ih r j _ _ _

lemma devArr_nonneg (t r : List ℚ) : ∀ d ∈ devArr t r, 0 ≤ d := by
  induction t generalizing r with
  | nil => intro d hd; simp [devArr] at hd
  | cons a t ih =>
    intro d hd
    cases r with
    | nil => simp [devArr] at hd
    | cons b r =>
      simp only [devArr, List.zipWith_cons_cons, List.mem_cons] at hd
      rcases hd with h | h
      · rw [h]; positivity
      · exact ih r d h

lemma devSum_nonneg (t r : List ℚ) : 0 ≤ devSum t r :=
  List.sum_nonneg (devArr_nonneg t r)

lemma devSum_self (t : List ℚ) : devSum t t = 0 := by
  induction t with
  | nil => rfl
  | cons a t ih =>
    simp only [devSum, devArr, List.zipWith_cons_cons, List.sum_cons] at *
    simp [ih]

lemma devSum_ne_neg_one (t r : List ℚ) : devSum t r ≠ -1 := by
  have := devSum_nonneg t r
  intro h
  rw [h] at this
  norm_num at this

/-- C6 helper: every entry of a list that sums to zero and has only
nonnegative entries is zero. -/
lemma all_zero_of_sum_zero :
    ∀ (l : List ℚ), (∀ x ∈ l, 0 ≤ x) → l.sum = 0 → ∀ x ∈ l, x = 0 := by
  intro l
  induction l with
  | nil => intro _ _ x hx; simp at hx
  | cons a l ih =>
    intro hpos hsum x hx
    have ha : 0 ≤ a := hpos a (by simp)
    have hl : 0 ≤ l.sum := List.sum_nonneg fun y hy => hpos y (by simp [hy])
    rw [List.sum_cons] at hsum
    have ha0 : a = 0 := by linarith
    have hl0 : l.sum = 0 := by linarith
    rcases List.mem_cons.mp hx with h | h
    · rw [h, ha0]
    · exact ih (fun y hy => hpos y (by simp [hy])) hl0 x h

lemma foldl_max_spec :
    ∀ (xs : List ℚ) (x : ℚ),
      xs.foldl max x ∈ x :: xs ∧ x ≤ xs.foldl max x ∧
        ∀ y ∈ xs, y ≤ xs.foldl max x := by
  intro xs
  induction xs with
  | nil =>
    intro x
    exact ⟨List.mem_singleton.mpr rfl, le_refl x, by simp⟩
  | cons y ys ih =>
    intro x
    obtain ⟨hmem, hle, hall⟩ := ih (max x y)
    have hfold : (y :: ys).foldl max x = ys.foldl max (max x y) := rfl
    refine ⟨?_, ?_, ?_⟩
    · rw [hfold]
      rcases List.mem_cons.mp hmem with h | h
      · rcases max_choice x y with hx | hy
        · rw [h, hx]; exact List.mem_cons_self _ _
        · rw [h, hy]; exact List.mem_cons_of_mem _ (List.mem_cons_self _ _)
      · exact List.mem_cons_of_mem _ (List.mem_cons_of_mem _ h)
    · rw [hfold]; exact le_trans (le_max_left x y) hle
    · intro z hz
      rw [hfold]
      rcases List.mem_cons.mp hz with h | h
      · rw [h]; exact le_trans (le_max_right x y) hle
      · exact hall z h

lemma npMax_spec (l : List ℚ) (m : ℚ) (h : npMax l = some m) :
    m ∈ l ∧ ∀ x ∈ l, x ≤ m := by
  cases l with
  | nil => cases h
  | cons x xs =>
    obtain ⟨hmem, hle, hall⟩ := foldl_max_spec xs x
    have hm : m = xs.foldl max x := by
      simp only [npMax] at h
      exact (Option.some_injective _ h).symm
    subst hm
    refine ⟨hmem, ?_⟩
    intro z hz
    rcases List.mem_cons.mp hz with h | h
    · rw [h]; exact hle
    · exact hall z h

lemma first_split_unique {α : Type} (P : α → Prop) :
    ∀ (a : List α) (w : α) (b a' : List α) (w' : α) (b' : List α),
      a ++ w :: b = a' ++ w' :: b' → P w → P w' →
      (∀ x ∈ a, ¬ P x) → (∀ x ∈ a', ¬ P x) → w = w' := by
  intro a
  induction a with
  | nil =>
    intro w b a' w' b' heq hw _ _ ha'
    cases a' with
    | nil => simpa using congrArg List.head? heq
    | cons p a'' =>
      have h1 : w = p := by simpa using congrArg List.head? heq
      exact absurd (h1 ▸ hw) (ha' p (List.mem_cons_self _ _))
  | cons q a'' ih =>
    intro w b a' w' b' heq hw hw' ha ha'
    cases a' with
    | nil =>
      have h1 : q = w' := by simpa using congrArg List.head? heq
      exact absurd (h1.symm ▸ hw') (ha q (List.mem_cons_self _ _))
    | cons p a3 =>
      have h2 : a'' ++ w :: b = a3 ++ w' :: b' := by
        simpa using congrArg List.tail heq
      exact ih w b a3 w' b' h2 hw hw'
        (fun x hx => ha x (List.mem_cons_of_mem _ hx))
        (fun x hx => ha' x (List.mem_cons_of_mem _ hx))

lemma scanIdeals_cons_replace (t : List ℚ) (r : Series) (rest : List Series)
    (st : ScanState) (hr : r.ys.length = t.length)
    (hcond : st.min_dev_sum = -1 ∨ devSum t r.ys < st.min_dev_sum) :
    scanIdeals t (r :: rest) st = scanIdeals t rest (stOf t r) := by
  rw [scanIdeals, squared_error_arr_ok t r.ys hr]
  simp only [PyVal.asArr]
  rw [if_pos (show st.min_dev_sum = -1 ∨ (devArr t r.ys).sum < st.min_dev_sum from hcond)]
  rfl

lemma scanIdeals_keep (t : List ℚ) (r : Series) (rest : List Series)
    (st : ScanState) (hr : r.ys.length = t.length)
    (h1 : st.min_dev_sum ≠ -1) (h2 : ¬ devSum t r.ys < st.min_dev_sum) :
    scanIdeals t (r :: rest) st = scanIdeals t rest st := by
  rw [scanIdeals, squared_error_arr_ok t r.ys hr]
  simp only [PyVal.asArr]
  rw [if_neg]
  intro hcond
  rcases hcond with h | h
  · exact h1 h
  · exact h2 h

lemma scanIdeals_spec (t : List ℚ) :
    ∀ (rs : List Series), (∀ r ∈ rs, r.ys.length = t.length) →
    ∀ (w : Series),
    ∃ a w' b,
      w :: rs = a ++ w' :: b ∧
      scanIdeals t rs (stOf t w) = .ok (stOf t w') ∧
      (∀ r ∈ w :: rs, devSum t w'.ys ≤ devSum t r.ys) ∧
      (∀ r ∈ a, devSum t w'.ys < devSum t r.ys) := by
  intro rs
  induction rs with
  | nil =>
    intro _ w
    refine ⟨[], w, [], rfl, rfl, ?_, by simp⟩
    intro r hr
    rw [List.mem_singleton.mp hr]
  | cons r rest ih =>
    intro hlen w
    have hr : r.ys.length = t.length := hlen r (List.mem_cons_self _ _)
    have hrest : ∀ s ∈ rest, s.ys.length = t.length :=
      fun s hs => hlen s (List.mem_cons_of_mem _ hs)
    by_cases hlt : devSum t r.ys < devSum t w.ys
    · have hstep : scanIdeals t (r :: rest) (stOf t w) = scanIdeals t rest (stOf t r) :=
        scanIdeals_cons_replace t r rest (stOf t w) hr (Or.inr hlt)
      obtain ⟨a, w', b, hsplit, hscan, hmin, hstrict⟩ := ih hrest r
      refine ⟨w :: a, w', b, ?_, ?_, ?_, ?_⟩
      · rw [List.cons_append, ← hsplit]
      · rw [hstep]; exact hscan
      · intro s hs
        rcases List.mem_cons.mp hs with h | hs'
        · rw [h]
          exact le_trans (hmin r (List.mem_cons_self _ _)) (le_of_lt hlt)
        · exact hmin s hs'
      · intro s hs
        rcases List.mem_cons.mp hs with h | hs'
        · rw [h]
          exact lt_of_le_of_lt (hmin r (List.mem_cons_self _ _)) hlt
        · exact hstrict s hs'
    · have hge : devSum t w.ys ≤ devSum t r.ys := not_lt.mp hlt
      have hstep : scanIdeals t (r :: rest) (stOf t w) = scanIdeals t rest (stOf t w) :=
        scanIdeals_keep t r rest (stOf t w) hr (devSum_ne_neg_one t w.ys) hlt
      obtain ⟨a, w', b, hsplit, hscan, hmin, hstrict⟩ := ih hrest w
      cases a with
      | nil =>
        have hww' : w' = w := by simpa using (congrArg List.head? hsplit).symm
        subst hww'
        refine ⟨[], w', r :: rest, rfl, ?_, ?_, by simp⟩
        · rw [hstep]; exact hscan
        · intro s hs
          rcases List.mem_cons.mp hs with h | hs'
          · rw [h]
          rcases List.mem_cons.mp hs' with h | hs''
          · rw [h]; exact hge
          · exact hmin s (List.mem_cons_of_mem _ hs'')
      | cons p a' =>
        have hpw : p = w := by simpa using (congrArg List.head? hsplit).symm
        subst hpw
        have hrest' : rest = a' ++ w' :: b := by
          simpa using congrArg List.tail hsplit
        refine ⟨p :: r :: a', w', b, ?_, ?_, ?_, ?_⟩
        · rw [List.cons_append, List.cons_append, ← hrest']
        · rw [hstep]; exact hscan
        · intro s hs
          rcases List.mem_cons.mp hs with h | hs'
          · rw [h]; exact hmin p (List.mem_cons_self _ _)
          rcases List.mem_cons.mp hs' with h | hs''
          · rw [h]
            exact le_trans (hmin p (List.mem_cons_self _ _)) hge
          · exact hmin s (List.mem_cons_of_mem _ hs'')
        · intro s hs
          rcases List.mem_cons.mp hs with h | hs'
          · rw [h]
            exact hstrict p (List.mem_cons_self _ _)
          rcases List.mem_cons.mp hs' with h | hs''
          · rw [h]
            exact lt_of_lt_of_le (hstrict p (List.mem_cons_self _ _)) hge
          · exact hstrict s (List.mem_cons_of_mem _ hs'')

lemma scanIdeals_init_cons (t : List ℚ) (r : Series) (rest : List Series)
    (hr : r.ys.length = t.length) :
    scanIdeals t (r :: rest) initState = scanIdeals t rest (stOf t r) :=
  scanIdeals_cons_replace t r rest initState hr (Or.inl rfl)

lemma findIdealFor_spec (t : Series) (ideals : List Series)
    (hne : ideals ≠ []) (ht : t.ys ≠ [])
    (hlen : ∀ r ∈ ideals, r.ys.length = t.ys.length) :
    ∃ a w b m,
      ideals = a ++ w :: b ∧
      findIdealFor t ideals = .ok ⟨t.name, m, w.name, devArr t.ys w.ys⟩ ∧
      npMax (devArr t.ys w.ys) = some m ∧
      (∀ r ∈ ideals, devSum t.ys w.ys ≤ devSum t.ys r.ys) ∧
      (∀ r ∈ a, devSum t.ys w.ys < devSum t.ys r.ys) := by
  cases ideals with
  | nil => exact absurd rfl hne
  | cons r rest =>
    have hr : r.ys.length = t.ys.length := hlen r (List.mem_cons_self _ _)
    have hrest : ∀ s ∈ rest, s.ys.length = t.ys.length :=
      fun s hs => hlen s (List.mem_cons_of_mem _ hs)
    obtain ⟨a, w, b, hsplit, hscan, hmin, hstrict⟩ := scanIdeals_spec t.ys rest hrest r
    have hw : w ∈ r :: rest := by
      rw [hsplit]
      exact List.mem_append_right a (List.mem_cons_self _ _)
    have hwlen : w.ys.length = t.ys.length := hlen w hw
    have hdev_ne : devArr t.ys w.ys ≠ [] := by
      intro h0
      have hlen0 := devArr_length t.ys w.ys
      rw [h0, hwlen, min_self] at hlen0
      exact ht (List.length_eq_zero.mp hlen0.symm)
    obtain ⟨m, hm⟩ : ∃ m, npMax (devArr t.ys w.ys) = some m := by
      cases hdv : devArr t.ys w.ys with
      | nil => exact absurd hdv hdev_ne
      | cons d ds => exact ⟨ds.foldl max d, rfl⟩
    refine ⟨a, w, b, m, hsplit, ?_, hm, hmin, hstrict⟩
    rw [findIdealFor, scanIdeals_init_cons t.ys r rest hr, hscan]
    simp only [stOf, hm]

lemma squared_error_arr_inv (t r : List ℚ) (v : PyVal)
    (h : squared_error (.arr t) (.arr r) = .ok v) :
    r.length = t.length ∧ v = .arr (devArr t r) := by
  by_cases hl : t.length = r.length
  · rw [squared_error_arr_ok t r hl.symm] at h
    exact ⟨hl.symm, (Except.ok.inj h).symm⟩
  · rw [squared_error_arr_err t r hl] at h
    cases h

lemma scanIdeals_preserves_some (t : List ℚ) :
    ∀ (rs : List Series) (st st' : ScanState),
      scanIdeals t rs st = .ok st' →
      st.min_dev.isSome = true → st.min_name.isSome = true →
      st'.min_dev.isSome = true ∧ st'.min_name.isSome = true := by
  intro rs
  induction rs with
  | nil =>
    intro st st' h h1 h2
    obtain rfl := Except.ok.inj h
    exact ⟨h1, h2⟩
  | cons r rest ih =>
    intro st st' h h1 h2
    cases hse : squared_error (.arr t) (.arr r.ys) with
    | error e =>
      rw [scanIdeals, hse] at h
      cases h
    | ok v =>
      obtain ⟨hr, _⟩ := squared_error_arr_inv t r.ys v hse
      by_cases hc : st.min_dev_sum = -1 ∨ devSum t r.ys < st.min_dev_sum
      · rw [scanIdeals_cons_replace t r rest st hr hc] at h
        exact ih _ _ h rfl rfl
      · have hnc := not_or.mp hc
        rw [scanIdeals_keep t r rest st hr hnc.1 hnc.2] at h
        exact ih _ _ h h1 h2

lemma findIdealFor_ne_unbound (t : Series) (ideals : List Series) (hne : ideals ≠ []) :
    findIdealFor t ideals ≠ .error .unboundLocal := by
  cases ideals with
  | nil => exact absurd rfl hne
  | cons r rest =>
    intro hcontra
    rw [findIdealFor] at hcontra
    cases hscan : scanIdeals t.ys (r :: rest) initState with
    | error e =>
      rw [hscan] at hcontra
      simp at hcontra
    | ok st =>
      rw [hscan] at hcontra
      have hsome : st.min_dev.isSome = true ∧ st.min_name.isSome = true := by
        cases hse : squared_error (.arr t.ys) (.arr r.ys) with
        | error e =>
          rw [scanIdeals, hse] at hscan
          cases hscan
        | ok v =>
          obtain ⟨hr, _⟩ := squared_error_arr_inv t.ys r.ys v hse
          rw [scanIdeals_cons_replace t.ys r rest initState hr (Or.inl rfl)] at hscan
          exact scanIdeals_preserves_some t.ys rest _ st hscan rfl rfl
      obtain ⟨dev, hdev⟩ := Option.isSome_iff_exists.mp hsome.1
      obtain ⟨nm, hnm⟩ := Option.isSome_iff_exists.mp hsome.2
      cases hmx : npMax dev with
      | some m => simp [hdev, hnm, hmx] at hcontra
      | none => simp [hdev, hnm, hmx] at hcontra

lemma find_ideal_functions_ne_unbound (training ideals : List Series)
    (hne : ideals ≠ []) :
    find_ideal_functions training ideals ≠ .error .unboundLocal := by
  induction training with
  | nil => simp [find_ideal_functions]
  | cons t ts ih =>
    rw [find_ideal_functions]
    cases hf : findIdealFor t ideals with
    | error e =>
      intro hcontra
      have hcontra' : (Except.error e : Except FindErr (List SelectionRecord)) =
          .error .unboundLocal := hcontra
      exact findIdealFor_ne_unbound t ideals hne
        ((Except.error.inj hcontra') ▸ hf)
    | ok rec =>
      cases hrest : find_ideal_functions ts ideals with
      | error e' =>
        intro hcontra
        have hcontra' : (Except.error e' : Except FindErr (List SelectionRecord)) =
            .error .unboundLocal := hcontra
        exact ih (hrest.trans hcontra')
      | ok recs =>
        intro hcontra
        exact Except.noConfusion hcontra

/-- C1: For every non-empty training series and non-empty reference
library of comparable series, the selector (`find_ideal_functions`, via
its per-training-series body `findIdealFor`) returns the reference
series whose sum of pointwise squared deviations against the training
series is minimal, and records as tolerance basis (`maximum_deviation`)
the maximum — not the sum — of the pointwise squared deviations of the
winning pair; in particular, for a training series identical to
reference series `R` with no earlier-ordered perfect match, `R` wins
with tolerance basis `0`. -/
theorem selector_minimality_c1 (t : Series) (ideals : List Series)
    (hne : ideals ≠ []) (ht : t.ys ≠ [])
    (hlen : ∀ r ∈ ideals, r.ys.length = t.ys.length) :
    ∃ a w b rec,
      ideals = a ++ w :: b ∧
      findIdealFor t ideals = .ok rec ∧
      find_ideal_functions [t] ideals = .ok [rec] ∧
      rec.training_name = t.name ∧
      rec.ideal_function = w.name ∧
      rec.deviations = devArr t.ys w.ys ∧
      npMax (devArr t.ys w.ys) = some rec.maximum_deviation ∧
      rec.maximum_deviation ∈ devArr t.ys w.ys ∧
      (∀ d ∈ devArr t.ys w.ys, d ≤ rec.maximum_deviation) ∧
      (∀ r ∈ ideals, devSum t.ys w.ys ≤ devSum t.ys r.ys) ∧
      (∀ (a' : List Series) (R : Series) (b' : List Series),
        ideals = a' ++ R :: b' → t.ys = R.ys →
        (∀ r ∈ a', devSum t.ys r.ys ≠ 0) →
        rec.ideal_function = R.name ∧ rec.maximum_deviation = 0) := by
  obtain ⟨a, w, b, m, hsplit, hfind, hmax, hmin, hstrict⟩ :=
    findIdealFor_spec t ideals hne ht hlen
  obtain ⟨hmem, hub⟩ := npMax_spec _ m hmax
  refine ⟨a, w, b, _, hsplit, hfind, ?_, rfl, rfl, rfl, hmax, hmem, hub, hmin, ?_⟩
  · rw [find_ideal_functions, hfind, find_ideal_functions]
  · intro a' R b' hsplit' htR hprev
    have hR : R ∈ ideals := by
      rw [hsplit']
      exact List.mem_append_right _ (List.mem_cons_self _ _)
    have hR0 : devSum t.ys R.ys = 0 := by
      rw [htR]
      exact devSum_self R.ys
    have hw0 : devSum t.ys w.ys = 0 :=
      le_antisymm (hR0 ▸ hmin R hR) (devSum_nonneg _ _)
    have hweq : w = R := by
      refine first_split_unique (fun x => devSum t.ys x.ys = 0) a w b a' R b'
        (hsplit.symm.trans hsplit') hw0 hR0 ?_ hprev
      intro x hx hx0
      have hlt := hstrict x hx
      rw [hw0, hx0] at hlt
      exact lt_irrefl 0 hlt
    constructor
    · show w.name = R.name
      rw [hweq]
    · have hall : ∀ d ∈ devArr t.ys w.ys, d = 0 :=
        all_zero_of_sum_zero _ (devArr_nonneg _ _) hw0
      exact hall m hmem

/-- Witness for C1: the spec's end-to-end scenario, training
`[1,2,3]` against the library `{f1 = [1,2,3], f2 = [0,0,0]}`. -/
theorem selector_minimality_c1_witness :
    (idealsExample ≠ [] ∧ tExample.ys ≠ [] ∧
        ∀ r ∈ idealsExample, r.ys.length = tExample.ys.length) ∧
      ∃ a w b rec,
        idealsExample = a ++ w :: b ∧
        findIdealFor tExample idealsExample = .ok rec ∧
        find_ideal_functions [tExample] idealsExample = .ok [rec] ∧
        rec.training_name = tExample.name ∧
        rec.ideal_function = w.name ∧
        rec.deviations = devArr tExample.ys w.ys ∧
        npMax (devArr tExample.ys w.ys) = some rec.maximum_deviation ∧
        rec.maximum_deviation ∈ devArr tExample.ys w.ys ∧
        (∀ d ∈ devArr tExample.ys w.ys, d ≤ rec.maximum_deviation) ∧
        (∀ r ∈ idealsExample, devSum tExample.ys w.ys ≤ devSum tExample.ys r.ys) ∧
        (∀ (a' : List Series) (R : Series) (b' : List Series),
          idealsExample = a' ++ R :: b' → tExample.ys = R.ys →
          (∀ r ∈ a', devSum tExample.ys r.ys ≠ 0) →
          rec.ideal_function = R.name ∧ rec.maximum_deviation = 0) :=
  ⟨⟨by simp [idealsExample], by simp [tExample],
      by simp [idealsExample, tExample]⟩,
    selector_minimality_c1 tExample idealsExample (by simp [idealsExample])
      (by simp [tExample]) (by simp [idealsExample, tExample])⟩

/-- C2: If two or more reference series achieve the same minimal sum of
squared deviations, the selector chooses the one appearing earliest in
library order (the running minimum is replaced only on strictly smaller
sums), so the winner is determined by the input alone. -/
theorem selector_tiebreak_c2 (t : Series) (ideals : List Series)
    (ht : t.ys ≠ [])
    (hlen : ∀ r ∈ ideals, r.ys.length = t.ys.length)
    (a₀ : List Series) (w₀ : Series) (b₀ : List Series)
    (hsplit : ideals = a₀ ++ w₀ :: b₀)
    (hfirst : ∀ r ∈ a₀, devSum t.ys w₀.ys < devSum t.ys r.ys)
    (hminh : ∀ r ∈ ideals, devSum t.ys w₀.ys ≤ devSum t.ys r.ys) :
    ∃ rec, findIdealFor t ideals = .ok rec ∧ rec.ideal_function = w₀.name := by
  have hne : ideals ≠ [] := by simp [hsplit]
  obtain ⟨a, w, b, m, hsplit2, hfind, _, hmin, hstrict⟩ :=
    findIdealFor_spec t ideals hne ht hlen
  have hw : w ∈ ideals := by
    rw [hsplit2]
    exact List.mem_append_right _ (List.mem_cons_self _ _)
  have hw₀ : w₀ ∈ ideals := by
    rw [hsplit]
    exact List.mem_append_right _ (List.mem_cons_self _ _)
  have heq : devSum t.ys w.ys = devSum t.ys w₀.ys :=
    le_antisymm (hmin w₀ hw₀) (hminh w hw)
  have hweq : w = w₀ := by
    refine first_split_unique (fun x => devSum t.ys x.ys ≤ devSum t.ys w₀.ys)
      a w b a₀ w₀ b₀ (hsplit2.symm.trans hsplit) (le_of_eq heq) (le_refl _) ?_ ?_
    · intro x hx hle
      have h1 := hstrict x hx
      rw [heq] at h1
      exact absurd h1 (not_lt.mpr hle)
    · intro x hx hle
      exact absurd (hfirst x hx) (not_lt.mpr hle)
  refine ⟨_, hfind, ?_⟩
  show w.name = w₀.name
  rw [hweq]

/-- Witness for C2: two candidates both at squared-deviation sum `2`;
the first one (`f1`) wins. -/
theorem selector_tiebreak_c2_witness :
    (tTie.ys ≠ [] ∧
        (∀ r ∈ idealsTie, r.ys.length = tTie.ys.length) ∧
        idealsTie = [] ++ (⟨"f1", [1, 1]⟩ : Series) :: [⟨"f2", [-1, -1]⟩] ∧
        (∀ r ∈ ([] : List Series),
          devSum tTie.ys (⟨"f1", [1, 1]⟩ : Series).ys < devSum tTie.ys r.ys) ∧
        (∀ r ∈ idealsTie,
          devSum tTie.ys (⟨"f1", [1, 1]⟩ : Series).ys ≤ devSum tTie.ys r.ys)) ∧
      ∃ rec, findIdealFor tTie idealsTie = .ok rec ∧
        rec.ideal_function = (⟨"f1", [1, 1]⟩ : Series).name := by
  have h1 : tTie.ys ≠ [] := by simp [tTie]
  have h2 : ∀ r ∈ idealsTie, r.ys.length = tTie.ys.length := by
    simp [idealsTie, tTie]
  have h3 : idealsTie = [] ++ (⟨"f1", [1, 1]⟩ : Series) :: [⟨"f2", [-1, -1]⟩] := by
    simp [idealsTie]
  have h4 : ∀ r ∈ ([] : List Series),
      devSum tTie.ys (⟨"f1", [1, 1]⟩ : Series).ys < devSum tTie.ys r.ys := by
    simp
  have h5 : ∀ r ∈ idealsTie,
      devSum tTie.ys (⟨"f1", [1, 1]⟩ : Series).ys ≤ devSum tTie.ys r.ys := by
    intro r hr
    simp only [idealsTie, List.mem_cons, List.mem_singleton] at hr
    rcases hr with rfl | hr
    · norm_num [devSum, devArr, tTie]
    · rcases hr with rfl | hr
      · norm_num [devSum, devArr, tTie]
      · simp at hr
  exact ⟨⟨h1, h2, h3, h4, h5⟩,
    selector_tiebreak_c2 tTie idealsTie h1 h2 [] _ [⟨"f2", [-1, -1]⟩] h3 h4 h5⟩

/-- C10: With a non-empty training library and an empty reference
library, the inner scan never runs, the `-1` sentinel is never
replaced, and `find_ideal_functions` fails with the unbound-local
`NameError` instead of producing output; with a non-empty reference
library this failure is unreachable, both for one training series and
for the whole run. -/
theorem selector_empty_reference_c10 :
    (∀ (training : List Series), training ≠ [] →
      find_ideal_functions training [] = .error .unboundLocal) ∧
    (∀ (t : Series) (ideals : List Series), ideals ≠ [] →
      findIdealFor t ideals ≠ .error .unboundLocal) ∧
    (∀ (training ideals : List Series), ideals ≠ [] →
      find_ideal_functions training ideals ≠ .error .unboundLocal) := by
  refine ⟨?_, findIdealFor_ne_unbound, find_ideal_functions_ne_unbound⟩
  intro training hne
  cases training with
  | nil => exact absurd rfl hne
  | cons t ts => rfl

/-- Witness for C10: a one-series training library against the empty
reference library fails with the unbound-local error. -/
theorem selector_empty_reference_c10_witness :
    ([tExample] : List Series) ≠ [] ∧
      find_ideal_functions [tExample] [] = .error .unboundLocal :=
  ⟨by simp, selector_empty_reference_c10.1 [tExample] (by simp)⟩

lemma mapping_criterion_eq_real (d M : ℚ) (hd : 0 ≤ d) :
    mapping_criterion d M = true ↔ mapping_criterion_real d M := by
  rw [mapping_criterion, mapping_criterion_real, decide_eq_true_iff]
  have h2 : Real.sqrt 2 ^ 2 = 2 := Real.sq_sqrt (by norm_num)
  have hs : (0 : ℝ) ≤ Real.sqrt 2 := Real.sqrt_nonneg 2
  have hd' : (0 : ℝ) ≤ (d : ℝ) := by exact_mod_cast hd
  constructor
  · rintro ⟨hM, hle⟩
    have hM' : (0 : ℝ) ≤ (M : ℝ) := by exact_mod_cast hM
    have hle' : 2 * (d : ℝ) ^ 2 ≤ (M : ℝ) ^ 2 := by exact_mod_cast hle
    have hsq : ((d : ℝ) * Real.sqrt 2) ^ 2 ≤ (M : ℝ) ^ 2 := by
      rw [mul_pow, h2]
      linarith
    exact le_of_pow_le_pow_left₀ two_ne_zero hM' hsq
  · intro hle
    have hM' : (0 : ℝ) ≤ (M : ℝ) := le_trans (mul_nonneg hd' hs) hle
    have hsq : ((d : ℝ) * Real.sqrt 2) ^ 2 ≤ (M : ℝ) ^ 2 :=
      pow_le_pow_left₀ (mul_nonneg hd' hs) hle 2
    rw [mul_pow, h2] at hsq
    have h2d : 2 * (d : ℝ) ^ 2 ≤ (M : ℝ) ^ 2 := by linarith
    exact ⟨by exact_mod_cast hM', by exact_mod_cast h2d⟩

lemma sqrtOfSq_eq_sqrt (q : ℚ) :
    ((sqrtOfSq q : ℚ) : ℝ) = Real.sqrt (((q ^ 2 : ℚ) : ℝ)) := by
  rw [sqrtOfSq]
  push_cast
  rw [Real.sqrt_sq_eq_abs]

lemma seriesAt_none_of_not_mem :
    ∀ (xs ys : List ℚ) (x : ℚ), x ∉ xs → seriesAt (xs.zip ys) x = none := by
  intro xs
  induction xs with
  | nil => intro ys x _; cases ys <;> rfl
  | cons a xs ih =>
    intro ys x hx
    cases ys with
    | nil => rfl
    | cons b ys =>
      have hax : ¬ a = x := fun h => hx (h ▸ List.mem_cons_self _ _)
      rw [List.zip_cons_cons, seriesAt, if_neg hax]
      exact ih ys x (fun h => hx (List.mem_cons_of_mem _ h))

lemma rowFor_isSome_eq_accepts (tbl : IdealTable) (x y : ℚ) (r : ResultColumn) :
    (rowFor tbl x y r).isSome = acceptsPoint tbl x y r := by
  rw [rowFor, acceptsPoint]
  cases hv : idealValueAt tbl r.ideal_function x with
  | error e => rfl
  | ok v =>
    dsimp only
    by_cases hc : mapping_criterion (squared_error_flt y v) r.maximum_deviation = true
    · rw [if_pos hc, hc]; rfl
    · rw [if_neg hc]
      simp only [Bool.not_eq_true] at hc
      rw [hc]
      rfl

lemma length_filterMap_countP {α β : Type} (f : α → Option β) :
    ∀ l : List α, (l.filterMap f).length = l.countP (fun a => (f a).isSome) := by
  intro l
  induction l with
  | nil => rfl
  | cons a l ih =>
    rw [List.filterMap_cons, List.countP_cons]
    cases hf : f a with
    | none => simp [hf, ih]
    | some b => simp [hf, ih]

lemma processRecords_eq_filterMap (tbl : IdealTable) (x y : ℚ) :
    ∀ (records : List ResultColumn),
      (∀ r ∈ records, ∃ v, idealValueAt tbl r.ideal_function x = .ok v) →
      processRecords tbl x y records = .ok (records.filterMap (rowFor tbl x y)) := by
  intro records
  induction records with
  | nil => intro _; rfl
  | cons r rest ih =>
    intro h
    obtain ⟨v, hv⟩ := h r (List.mem_cons_self _ _)
    have hrest : ∀ s ∈ rest, ∃ u, idealValueAt tbl s.ideal_function x = .ok u :=
      fun s hs => h s (List.mem_cons_of_mem _ hs)
    by_cases hc : mapping_criterion (squared_error_flt y v) r.maximum_deviation = true
    · simp only [processRecords, hv, squared_error_flt_ok, PyVal.asFlt, ih hrest,
        List.filterMap_cons, rowFor, hc]
      simp
    · simp only [processRecords, hv, squared_error_flt_ok, PyVal.asFlt, ih hrest,
        List.filterMap_cons, rowFor, hc]
      simp

lemma processPoint_eq (tbl : IdealTable) (records : List ResultColumn) (x y : ℚ)
    (hlk : ∀ r ∈ records, ∃ v, idealValueAt tbl r.ideal_function x = .ok v) :
    processPoint tbl records x y =
      .ok (if (records.filterMap (rowFor tbl x y)).isEmpty = true
        then [⟨x, y, none, none⟩]
        else records.filterMap (rowFor tbl x y)) := by
  rw [processPoint, processRecords_eq_filterMap tbl x y records hlk]

/-- C3: For every test point with scalar squared deviation `d` against
a Selection Record with tolerance basis `M`, the classifier accepts the
point exactly when `d * sqrt 2 ≤ M` (so in particular at the exact
boundary `d = M / sqrt 2`); when accepted, the emitted row carries the
deviation magnitude `sqrt d` and the record's winning reference name,
and belongs to the rows `processPoint` outputs. -/
theorem classifier_criterion_c3 (tbl : IdealTable) (r : ResultColumn) (x y v : ℚ)
    (hv : idealValueAt tbl r.ideal_function x = .ok v) :
    (acceptsPoint tbl x y r = true ↔
      mapping_criterion_real (squared_error_flt y v) r.maximum_deviation) ∧
    (((squared_error_flt y v : ℚ) : ℝ) =
        ((r.maximum_deviation : ℚ) : ℝ) / Real.sqrt 2 →
      acceptsPoint tbl x y r = true) ∧
    (acceptsPoint tbl x y r = true →
      rowFor tbl x y r =
          some ⟨x, y, some (sqrtOfSq (y - v)), some r.ideal_function⟩ ∧
        ((sqrtOfSq (y - v) : ℚ) : ℝ) =
          Real.sqrt (((squared_error_flt y v : ℚ) : ℝ)) ∧
        ∀ (records : List ResultColumn) (rows : List ResultRow),
          r ∈ records →
          (∀ s ∈ records, ∃ u, idealValueAt tbl s.ideal_function x = .ok u) →
          processPoint tbl records x y = .ok rows →
          (⟨x, y, some (sqrtOfSq (y - v)), some r.ideal_function⟩ : ResultRow) ∈ rows) := by
  have hd : (0 : ℚ) ≤ squared_error_flt y v := by
    rw [squared_error_flt]
    positivity
  have haccept : acceptsPoint tbl x y r =
      mapping_criterion (squared_error_flt y v) r.maximum_deviation := by
    rw [acceptsPoint, hv]
  refine ⟨?_, ?_, ?_⟩
  · rw [haccept]
    exact mapping_criterion_eq_real _ _ hd
  · intro hb
    rw [haccept, mapping_criterion_eq_real _ _ hd, mapping_criterion_real, hb]
    have hs : (0 : ℝ) < Real.sqrt 2 := Real.sqrt_pos.mpr (by norm_num)
    rw [div_mul_cancel₀ _ (ne_of_gt hs)]
  · intro hacc
    have hc : mapping_criterion (squared_error_flt y v) r.maximum_deviation = true :=
      haccept.symm.trans hacc
    have hrow : rowFor tbl x y r =
        some ⟨x, y, some (sqrtOfSq (y - v)), some r.ideal_function⟩ := by
      rw [rowFor, hv]
      dsimp only
      rw [if_pos hc]
    refine ⟨hrow, ?_, ?_⟩
    · rw [squared_error_flt]
      exact sqrtOfSq_eq_sqrt (y - v)
    · intro records rows hmem hlk hpp
      rw [processPoint_eq tbl records x y hlk] at hpp
      have hrowmem : (⟨x, y, some (sqrtOfSq (y - v)), some r.ideal_function⟩ :
          ResultRow) ∈ records.filterMap (rowFor tbl x y) :=
        List.mem_filterMap.mpr ⟨r, hmem, hrow⟩
      have hne : (records.filterMap (rowFor tbl x y)).isEmpty = false := by
        cases hfm : records.filterMap (rowFor tbl x y) with
        | nil => rw [hfm] at hrowmem; cases hrowmem
        | cons u us => rfl
      rw [hne] at hpp
      simp only [Bool.false_eq_true, if_false] at hpp
      obtain rfl := Except.ok.inj hpp
      exact hrowmem

/-- Witness for C3 at the boundary: tolerance basis `0`, deviation `0`,
so `d = M / sqrt 2` holds exactly and the point `(0, 1)` is accepted
against the column `f1` with value `1`. -/
theorem classifier_criterion_c3_witness :
    idealValueAt tblW recW.ideal_function 0 = .ok 1 ∧
      ((acceptsPoint tblW 0 1 recW = true ↔
        mapping_criterion_real (squared_error_flt 1 1) recW.maximum_deviation) ∧
      (((squared_error_flt 1 1 : ℚ) : ℝ) =
          ((recW.maximum_deviation : ℚ) : ℝ) / Real.sqrt 2 →
        acceptsPoint tblW 0 1 recW = true) ∧
      (acceptsPoint tblW 0 1 recW = true →
        rowFor tblW 0 1 recW =
            some ⟨0, 1, some (sqrtOfSq (1 - 1)), some recW.ideal_function⟩ ∧
          ((sqrtOfSq (1 - 1) : ℚ) : ℝ) =
            Real.sqrt (((squared_error_flt 1 1 : ℚ) : ℝ)) ∧
          ∀ (records : List ResultColumn) (rows : List ResultRow),
            recW ∈ records →
            (∀ s ∈ records, ∃ u, idealValueAt tblW s.ideal_function 0 = .ok u) →
            processPoint tblW records 0 1 = .ok rows →
            (⟨0, 1, some (sqrtOfSq (1 - 1)), some recW.ideal_function⟩ :
              ResultRow) ∈ rows)) := by
  have hv : idealValueAt tblW recW.ideal_function 0 = .ok 1 := by
    norm_num [idealValueAt, tblW, recW, ideal_column_by_name, seriesAt, List.find?]
  exact ⟨hv, classifier_criterion_c3 tblW recW 0 1 1 hv⟩

/-- C4: For every test point whose per-record lookups succeed, the
classifier's per-point body outputs at least one Mapping Result Row,
and when zero Selection Records accept the point it outputs exactly one
row with empty deviation and reference-name fields. -/
theorem classifier_completeness_c4 (tbl : IdealTable)
    (records : List ResultColumn) (x y : ℚ)
    (hlk : ∀ r ∈ records, ∃ v, idealValueAt tbl r.ideal_function x = .ok v) :
    ∃ rows, processPoint tbl records x y = .ok rows ∧
      1 ≤ rows.length ∧
      ((∀ r ∈ records, acceptsPoint tbl x y r = false) →
        rows = [⟨x, y, none, none⟩]) := by
  rw [processPoint_eq tbl records x y hlk]
  by_cases he : (records.filterMap (rowFor tbl x y)).isEmpty = true
  · refine ⟨[⟨x, y, none, none⟩], ?_, by simp, fun _ => rfl⟩
    rw [he]
    simp
  · have he' : (records.filterMap (rowFor tbl x y)).isEmpty = false :=
      Bool.not_eq_true _ ▸ he
    refine ⟨records.filterMap (rowFor tbl x y), ?_, ?_, ?_⟩
    · rw [he']
      simp
    · rcases hfm : records.filterMap (rowFor tbl x y) with _ | ⟨u, us⟩
      · rw [hfm] at he'; cases he'
      · simp
    · intro hnone
      exfalso
      have hnil : records.filterMap (rowFor tbl x y) = [] := by
        apply List.filterMap_eq_nil_iff.mpr
        intro r hr
        have hsome := rowFor_isSome_eq_accepts tbl x y r
        rw [hnone r hr] at hsome
        exact Option.not_isSome_iff_eq_none.mp (by rw [hsome]; simp)
      rw [hnil] at he'
      cases he'

/-- Witness for C4: against a record with negative tolerance basis, the
point `(0, 1)` matches nothing and yields exactly the one empty row. -/
theorem classifier_completeness_c4_witness :
    (∀ r ∈ [recReject], ∃ v, idealValueAt tblW r.ideal_function 0 = .ok v) ∧
      ∃ rows, processPoint tblW [recReject] 0 1 = .ok rows ∧
        1 ≤ rows.length ∧
        ((∀ r ∈ [recReject], acceptsPoint tblW 0 1 r = false) →
          rows = [⟨0, 1, none, none⟩]) := by
  have hlk : ∀ r ∈ [recReject], ∃ v, idealValueAt tblW r.ideal_function 0 = .ok v := by
    intro r hr
    rw [List.mem_singleton.mp hr]
    exact ⟨1, by norm_num [idealValueAt, tblW, recReject, ideal_column_by_name,
      seriesAt, List.find?]⟩
  exact ⟨hlk, classifier_completeness_c4 tblW [recReject] 0 1 hlk⟩

/-- C5: The classifier evaluates every test point against every
Selection Record with no mutual exclusivity: when `k ≥ 1` records
accept the point, exactly `k` matched rows are emitted — the rows are
precisely the per-record rows, kept in record order, one per accepting
record. -/
theorem classifier_multimatch_c5 (tbl : IdealTable)
    (records : List ResultColumn) (x y : ℚ) (k : ℕ)
    (hlk : ∀ r ∈ records, ∃ v, idealValueAt tbl r.ideal_function x = .ok v)
    (hk : records.countP (acceptsPoint tbl x y) = k) (h1 : 1 ≤ k) :
    ∃ rows, processPoint tbl records x y = .ok rows ∧
      rows = records.filterMap (rowFor tbl x y) ∧
      rows.length = k ∧
      ∀ r, (rowFor tbl x y r).isSome = acceptsPoint tbl x y r := by
  have hlen : (records.filterMap (rowFor tbl x y)).length = k := by
    rw [length_filterMap_countP]
    rw [← hk]
    congr 1
    funext r
    exact rowFor_isSome_eq_accepts tbl x y r
  have hne : (records.filterMap (rowFor tbl x y)).isEmpty = false := by
    rcases hfm : records.filterMap (rowFor tbl x y) with _ | ⟨u, us⟩
    · rw [hfm] at hlen
      simp at hlen
      omega
    · rfl
  rw [processPoint_eq tbl records x y hlk, hne]
  exact ⟨records.filterMap (rowFor tbl x y), by simp, rfl, hlen,
    rowFor_isSome_eq_accepts tbl x y⟩

/-- Witness for C5: two records both accept `(0, 1)`, so exactly two
matched rows are emitted. -/
theorem classifier_multimatch_c5_witness :
    (∀ r ∈ recsBoth, ∃ v, idealValueAt tblW r.ideal_function 0 = .ok v) ∧
      recsBoth.countP (acceptsPoint tblW 0 1) = 2 ∧ 1 ≤ 2 ∧
      ∃ rows, processPoint tblW recsBoth 0 1 = .ok rows ∧
        rows = recsBoth.filterMap (rowFor tblW 0 1) ∧
        rows.length = 2 ∧
        ∀ r, (rowFor tblW 0 1 r).isSome = acceptsPoint tblW 0 1 r := by
  have hv : idealValueAt tblW "f1" 0 = .ok 1 := by
    norm_num [idealValueAt, tblW, ideal_column_by_name, seriesAt, List.find?]
  have hlk : ∀ r ∈ recsBoth, ∃ v, idealValueAt tblW r.ideal_function 0 = .ok v := by
    intro r hr
    rcases List.mem_cons.mp hr with h | hr'
    · rw [h]; exact ⟨1, hv⟩
    · rw [List.mem_singleton.mp hr']; exact ⟨1, hv⟩
  have hk : recsBoth.countP (acceptsPoint tblW 0 1) = 2 := by
    have ha : ∀ M : ℚ, mapping_criterion (squared_error_flt 1 1) M =
        decide (0 ≤ M ∧ 2 * (squared_error_flt 1 1) ^ 2 ≤ M ^ 2) := fun M => rfl
    norm_num [recsBoth, List.countP_cons, acceptsPoint, hv, mapping_criterion,
      squared_error_flt]
  exact ⟨hlk, hk, by norm_num,
    classifier_multimatch_c5 tblW recsBoth 0 1 2 hlk hk (by norm_num)⟩

/-- C8: For every test point whose x-coordinate is absent from the
reference domain, the classifier fails with the lookup `KeyError` for
that point — on the per-point body and hence for the whole mapping run
— rather than skipping the point or emitting any row. -/
theorem classifier_lookup_error_c8 (tbl : IdealTable) (r₀ : ResultColumn)
    (rs : List ResultColumn) (x y : ℚ) (col : Series)
    (hcol : ideal_column_by_name tbl r₀.ideal_function = some col)
    (hx : x ∉ tbl.xs) :
    processPoint tbl (r₀ :: rs) x y = .error .lookupKeyError ∧
      ∀ pts : List (ℚ × ℚ),
        map_to_functions tbl (r₀ :: rs) ((x, y) :: pts) = .error .lookupKeyError := by
  have hlook : idealValueAt tbl r₀.ideal_function x = .error .lookupKeyError := by
    rw [idealValueAt, hcol]
    dsimp only
    rw [seriesAt_none_of_not_mem tbl.xs col.ys x hx]
  have hpr : processRecords tbl x y (r₀ :: rs) = .error .lookupKeyError := by
    rw [processRecords, hlook]
  have hpp : processPoint tbl (r₀ :: rs) x y = .error .lookupKeyError := by
    rw [processPoint, hpr]
  refine ⟨hpp, ?_⟩
  intro pts
  rw [map_to_functions, hpp]

/-- Witness for C8: the test point with `x = 1` is absent from the
index `[0]`, so the classifier fails with the lookup error. -/
theorem classifier_lookup_error_c8_witness :
    ideal_column_by_name tblW recW.ideal_function = some ⟨"f1", [1]⟩ ∧
      (1 : ℚ) ∉ tblW.xs ∧
      (processPoint tblW [recW] 1 5 = .error .lookupKeyError ∧
        ∀ pts : List (ℚ × ℚ),
          map_to_functions tblW [recW] ((1, 5) :: pts) = .error .lookupKeyError) := by
  have hcol : ideal_column_by_name tblW recW.ideal_function = some ⟨"f1", [1]⟩ := by
    norm_num [ideal_column_by_name, tblW, recW, List.find?]
  have hx : (1 : ℚ) ∉ tblW.xs := by norm_num [tblW]
  exact ⟨hcol, hx, classifier_lookup_error_c8 tblW recW [] 1 5 ⟨"f1", [1]⟩ hcol hx⟩

lemma devArr_getD :
    ∀ (t r : List ℚ) (i : ℕ), i < t.length → i < r.length →
      (devArr t r).getD i 0 = (t.getD i 0 - r.getD i 0) ^ 2 := by
  intro t
  induction t with
  | nil => intro r i h1 _; simp at h1
  | cons a t ih =>
    intro r i h1 h2
    cases r with
    | nil => simp at h2
    | cons b r =>
      cases i with
      | zero => simp [devArr]
      | succ j =>
        simp only [devArr, List.zipWith_cons_cons, List.getD_cons_succ]
        exact ih r j (by simpa using h1) (by simpa using h2)

lemma devArr_comm : ∀ t r : List ℚ, devArr t r = devArr r t := by
  intro t
  induction t with
  | nil => intro r; cases r <;> rfl
  | cons a t ih =>
    intro r
    cases r with
    | nil => rfl
    | cons b r =>
      simp only [devArr, List.zipWith_cons_cons] at *
      rw [ih r]
      congr 1
      ring

/-- C6: On two numeric arrays of equal length the squared-error
function returns the array of pointwise squared differences — entry `i`
is `(a[i] - b[i])^2` for every index — and on arrays of unequal length
it always fails with the index-count-mismatch error. -/
theorem squared_error_arrays_c6 (a b : List ℚ) :
    (a.length = b.length →
      ∃ out, squared_error (.arr a) (.arr b) = .ok (.arr out) ∧
        out.length = a.length ∧
        ∀ i < a.length, out.getD i 0 = (a.getD i 0 - b.getD i 0) ^ 2) ∧
    (a.length ≠ b.length →
      squared_error (.arr a) (.arr b) = .error .indexCountMismatch) := by
  constructor
  · intro h
    refine ⟨devArr a b, squared_error_arr_ok a b h.symm, ?_, ?_⟩
    · rw [devArr_length, h, min_self]
    · intro i hi
      exact devArr_getD a b i hi (h ▸ hi)
  · intro h
    exact squared_error_arr_err a b h

/-- Witness for C6: equal-length arrays `[1,2]` vs `[3,5]` succeed with
pointwise squares; unequal-length arrays `[1]` vs `[]` fail with the
index-count mismatch. -/
theorem squared_error_arrays_c6_witness :
    (([1, 2] : List ℚ).length = ([3, 5] : List ℚ).length ∧
      ∃ out, squared_error (.arr [1, 2]) (.arr [3, 5]) = .ok (.arr out) ∧
        out.length = ([1, 2] : List ℚ).length ∧
        ∀ i < ([1, 2] : List ℚ).length,
          out.getD i 0 = (([1, 2] : List ℚ).getD i 0 - ([3, 5] : List ℚ).getD i 0) ^ 2) ∧
    (([1] : List ℚ).length ≠ ([] : List ℚ).length ∧
      squared_error (.arr [1]) (.arr ([] : List ℚ)) = .error .indexCountMismatch) :=
  ⟨⟨rfl, (squared_error_arrays_c6 [1, 2] [3, 5]).1 rfl⟩,
    ⟨by simp, (squared_error_arrays_c6 [1] []).2 (by simp)⟩⟩

/-- Counterexample to C7 as stated: the pair `(np.int64 0, np.float64
0)` lies outside the two sanctioned shapes (array/array,
float64/float64), but the `type(...)` equality check fires first, so it
fails with the type-mismatch error and not with the unsupported-type
error the claim requires for every pair outside the sanctioned
shapes. -/
theorem squared_error_c7_counterexample :
    squared_error (.int 0) (.flt 0) = .error .typeMismatch ∧
      squared_error (.int 0) (.flt 0) ≠ .error .unsupportedType := by
  refine ⟨rfl, ?_⟩
  intro h
  exact SqError.noConfusion (Except.error.inj h)

/-- C7 (amended): scalar float64 pairs give `(x - y)^2`; every pair of
operands of differing runtime types — a scalar mixed with an array, or
an integer mixed with a float64 — fails with the type-mismatch error;
and a pair of operands of the same type outside the two sanctioned
shapes (two integers) fails with the unsupported-type error. -/
theorem squared_error_scalars_c7 :
    (∀ x y : ℚ, squared_error (.flt x) (.flt y) = .ok (.flt ((x - y) ^ 2))) ∧
    (∀ (x : ℚ) (l : List ℚ),
      squared_error (.flt x) (.arr l) = .error .typeMismatch ∧
      squared_error (.arr l) (.flt x) = .error .typeMismatch) ∧
    (∀ (n : ℤ) (l : List ℚ),
      squared_error (.int n) (.arr l) = .error .typeMismatch ∧
      squared_error (.arr l) (.int n) = .error .typeMismatch) ∧
    (∀ (n : ℤ) (x : ℚ),
      squared_error (.int n) (.flt x) = .error .typeMismatch ∧
      squared_error (.flt x) (.int n) = .error .typeMismatch) ∧
    (∀ m n : ℤ, squared_error (.int m) (.int n) = .error .unsupportedType) :=
  ⟨fun _ _ => rfl, fun _ _ => ⟨rfl, rfl⟩, fun _ _ => ⟨rfl, rfl⟩,
    fun _ _ => ⟨rfl, rfl⟩, fun _ _ => rfl⟩

/-- C9: The squared-error function is symmetric — swapping the
arguments yields the identical outcome, both on the success values and
on each of the three failure conditions. -/
theorem squared_error_symmetric_c9 (a b : PyVal) :
    squared_error a b = squared_error b a := by
  cases a with
  | arr xs =>
    cases b with
    | arr ys =>
      by_cases h : xs.length = ys.length
      · rw [squared_error_arr_ok xs ys h.symm, squared_error_arr_ok ys xs h,
          devArr_comm]
      · rw [squared_error_arr_err xs ys h,
          squared_error_arr_err ys xs (fun h' => h h'.symm)]
    | flt y => rfl
    | int n => rfl
  | flt x =>
    cases b with
    | arr ys => rfl
    | flt y =>
      rw [squared_error_flt_ok, squared_error_flt_ok]
      simp only [squared_error_flt, Except.ok.injEq, PyVal.flt.injEq]
      ring
    | int n => rfl
  | int m =>
    cases b with
    | arr ys => rfl
    | flt y => rfl
    | int n => rfl

end PyMatcher
